import Mathlib

/-!
Shallow embedding of the cubipods bytecode virtual machine (Rust sources under
src/): the 256-bit word type `Bytes32`, the hex lexer, the opcode decoder, the
linked-list stack, the growable memory, the storage map and the fetch-decode-
execute engine `Vm::run`.  Rust `String` values are modelled as `List Char`,
byte buffers as `List Nat` (each entry < 256 by construction), and machine
integers as `Nat` with explicit bounds where the Rust code can overflow.
A Rust panic (native overflow, division by zero, `unwrap` on `None`) is a
distinct outcome `Fault.crash`, separate from the error values the code
returns to its caller.  Rust tests compile with overflow checks on, so native
arithmetic overflow is modelled as a crash, matching the spec's description
of the reference code.
-/

namespace Cubipods

/-- The caller-visible error kinds of the Rust code (`utils/errors.rs`). -/
inductive LexErr where
  | unableToCreateLexer
  | hasWhitespace
  | emptyChar
  | invalidNibble
deriving DecidableEq, Repr

/-- Model of `InstructionError::InvalidInstruction` carries the raw two-byte literal. -/
inductive InstrErr where
  | invalidInstruction (c1 c2 : Char)
deriving DecidableEq, Repr

/-- Model of `StackError` variants from `utils/errors.rs`. -/
inductive StackErr where
  | stackOverflow
  | stackUnderflow
  | stackSizeExceeded
  | stackIsEmpty
  | wrongIndex
deriving DecidableEq, Repr

/-- Model of `Bytes32Error` variants from `utils/errors.rs`. -/
inductive Bytes32Err where
  | invalidStr
  | u128ConversionFailed
deriving DecidableEq, Repr

/-- The ways the Rust process aborts (no error value is returned): native
integer overflow / underflow / division by zero in debug builds, shift
overflow, `unwrap()` on `None`, and out-of-range slicing. -/
inductive CrashKind where
  | arithOverflow
  | divByZero
  | shiftOverflow
  | unwrapNone
  | sliceOutOfRange
deriving DecidableEq, Repr

/-- Opcodes, as decoded by `InstructionType::from_str` (`instruction.rs`). -/
inductive Instr where
  | STOP | ADD | MUL | SUB | DIV | MOD | EXP
  | LT | GT | EQ | ISZERO
  | AND | OR | XOR | NOT | BYTE
  | KECCAK256 | POP | MLOAD | MSTORE | SLOAD | SSTORE
  | PUSH (n : Nat) | DUP (n : Nat) | SWAP (n : Nat)
deriving DecidableEq, Repr

/-- Model of `VmError` variants from `utils/errors.rs` (they carry the instruction). -/
inductive VmErr where
  | shallowStack (i : Instr)
  | incompatibleSize (i : Instr)
deriving DecidableEq, Repr

/-- One terminal error value, as surfaced by `Vm::run` through `Box<dyn Error>`. -/
inductive RunErr where
  | lex (e : LexErr)
  | instr (e : InstrErr)
  | stack (e : StackErr)
  | bytes32 (e : Bytes32Err)
  | vm (e : VmErr)
deriving DecidableEq, Repr

/-- Outcome of a fallible step: either an error value returned to the caller,
or a process abort (Rust panic). -/
inductive Fault where
  | err (e : RunErr)
  | crash (k : CrashKind)
deriving DecidableEq, Repr

/-! ## Hex characters and byte buffers -/

/-- Rust `char::is_ascii_hexdigit`. -/
def isHexChar (c : Char) : Bool :=
  (48 ≤ c.toNat && c.toNat ≤ 57) ||
  (97 ≤ c.toNat && c.toNat ≤ 102) ||
  (65 ≤ c.toNat && c.toNat ≤ 70)

/-- Numeric value of a hex digit, `none` on a non-hex character. -/
def hexCharVal (c : Char) : Option Nat :=
  if 48 ≤ c.toNat && c.toNat ≤ 57 then some (c.toNat - 48)
  else if 97 ≤ c.toNat && c.toNat ≤ 102 then some (c.toNat - 87)
  else if 65 ≤ c.toNat && c.toNat ≤ 70 then some (c.toNat - 55)
  else none

/-- Lowercase hex digit for a value < 16, as produced by `hex::encode` and
by the `{:x}` / `{:02x}` format specifiers. -/
def hexDigitChar (d : Nat) : Char :=
  if d < 10 then Char.ofNat (48 + d) else Char.ofNat (87 + d)

/-- Model of `hex::encode`: every byte becomes two lowercase hex characters. -/
def hexEncode (bs : List Nat) : List Char :=
  bs.flatMap (fun b => [hexDigitChar (b / 16), hexDigitChar (b % 16)])

/-- Model of `hex::decode`: fails on odd length or on a non-hex character. -/
def hexDecode : List Char → Option (List Nat)
  | [] => some []
  | [_] => none
  | c1 :: c2 :: rest =>
    match hexCharVal c1, hexCharVal c2, hexDecode rest with
    | some h, some l, some bs => some ((16 * h + l) :: bs)
    | _, _, _ => none

/-- Model of `s.trim_start_matches("0x")`: removes every leading occurrence of `0x`. -/
def dropZeroX : List Char → List Char
  | [] => []
  | [c] => [c]
  | c1 :: c2 :: rest =>
    if c1 = '0' ∧ c2 = 'x' then dropZeroX rest else c1 :: c2 :: rest

/-- Model of `Bytes32::from_str` (`utils/bytes32.rs`): strip `0x`, hex-decode, then
left-zero-pad into 32 bytes.  The Rust code indexes `bytes[32 - s.len()..]`,
which panics when the decoded input is longer than 32 bytes. -/
def Bytes32.fromStr (cs : List Char) : Except Fault (List Nat) :=
  match hexDecode (dropZeroX cs) with
  | none => .error (.err (.bytes32 .invalidStr))
  | some bs =>
    if bs.length ≤ 32 then .ok (List.replicate (32 - bs.length) 0 ++ bs)
    else .error (.crash .sliceOutOfRange)

/-- Model of `Display for Bytes32` / `TryInto<String>`: `hex::encode` of the 32 bytes. -/
def Bytes32.toHexString (w : List Nat) : List Char := hexEncode w

/-- Model of `Bytes32::parse_and_trim`: hex-encode, strip leading `'0'` characters,
and fall back to `"0"` when everything was stripped. -/
def Bytes32.parseAndTrim (w : List Nat) : List Char :=
  let s := (hexEncode w).dropWhile (fun c => c = '0')
  if s = [] then ['0'] else s

/-- Big-endian byte list to natural number. -/
def beToNat (bs : List Nat) : Nat := bs.foldl (fun acc b => acc * 256 + b) 0

/-- Big-endian encoding of `n` into exactly `k` bytes (low bytes of `n`). -/
def natToBe : Nat → Nat → List Nat
  | 0, _ => []
  | k + 1, n => natToBe k (n / 256) ++ [n % 256]

/-- Model of `TryInto<u128> for Bytes32`: reads the 16 low-order bytes. -/
def toU128 (w : List Nat) : Nat := beToNat (w.drop 16)

/-- Model of `From<u128> for Bytes32`: 16 zero bytes followed by the big-endian u128. -/
def fromU128 (n : Nat) : List Nat := List.replicate 16 0 ++ natToBe 16 n

/-- Model of `TryInto<usize> for Bytes32`: reads the 8 low-order bytes. -/
def toUsize (w : List Nat) : Nat := beToNat (w.drop 24)

/-- Model of `From<bool> for Bytes32`: low byte 1 or 0. -/
def fromBool (b : Bool) : List Nat :=
  List.replicate 31 0 ++ [if b then 1 else 0]

/-- The zero word `Bytes32::from(0)`. -/
def zeroWord : List Nat := List.replicate 32 0

/-! ## Stack (`stack.rs`)

The Rust stack is a singly linked list of owned nodes (`head` = top) together
with a separate `length : u16` counter.  The two can disagree after `dup`
(see below), so the model keeps both fields. -/

/-- Model of `Stack<String>`: `nodes` is the chain from `head` downwards, `length` is
the `length` field of the Rust struct. -/
structure VStack where
  nodes : List (List Char)
  length : Nat
deriving DecidableEq, Repr

/-- Model of `Stack::new()`. -/
def VStack.empty : VStack := ⟨[], 0⟩

/-- Model of `STACK_SIZE_LIMIT` (`stack.rs`). -/
def STACK_SIZE_LIMIT : Nat := 1024

/-- Model of `Stack::push`: refuses exactly when the `length` field equals 1024,
otherwise prepends the item and returns the new element's bottom-index
(`length - 1` after the increment).  On error the stack is unchanged. -/
def Stack.push (s : VStack) (item : List Char) : Except StackErr Nat × VStack :=
  if s.length = STACK_SIZE_LIMIT then (.error .stackOverflow, s)
  else (.ok s.length, ⟨item :: s.nodes, s.length + 1⟩)

/-- Model of `Stack::pop`: underflow on an empty chain; otherwise removes the head,
decrements `length`, and returns the pair `(1, item)` — the first component
is the literal constant `1` in the source, not a computed index. -/
def Stack.pop (s : VStack) : Except StackErr (Nat × List Char) × VStack :=
  match s.nodes with
  | [] => (.error .stackUnderflow, s)
  | x :: rest => (.ok (1, x), ⟨rest, s.length - 1⟩)

/-- The node reached from the head after `index` steps of
`if let Some(prev) = curr.prev { curr = prev }`: the walk stops silently at
the bottom node when the chain is shorter than `index`. -/
def Stack.walk (nodes : List (List Char)) (index : Nat) : List Char :=
  nodes.getD (min index (nodes.length - 1)) []

/-- Model of `Stack::dup`: after the bounds check it `take()`s the head and walks the
chain by moving each node out, so when it later pushes the copied item the
`head` field is `None`: every original node is dropped and the resulting
chain holds only the copy, while `length` is still incremented.  When the
inner push overflows, the error propagates with the chain already emptied. -/
def Stack.dup (s : VStack) (index : Nat) :
    Except StackErr (Nat × List Char) × VStack :=
  if s.length ≤ index then (.error .stackSizeExceeded, s)
  else if s.nodes.isEmpty then (.error .stackIsEmpty, s)
  else
    let item := Stack.walk s.nodes index
    match Stack.push ⟨[], s.length⟩ item with
    | (.error e, s') => (.error e, s')
    | (.ok _, s') => (.ok (s.length - 1 - index, item), s')

/-- Model of `Stack::swap`: exchanges the head item with the item `index` steps below
it (through raw pointers; when the chain is shorter than `index` the walk
stops at the bottom node, and when both pointers alias the net effect is no
change).  Returns both pre-swap bottom-indices and values. -/
def Stack.swap (s : VStack) (index : Nat) :
    Except StackErr ((Nat × Nat) × (List Char × List Char)) × VStack :=
  if index = 0 then (.error .wrongIndex, s)
  else if s.length ≤ index then (.error .stackSizeExceeded, s)
  else if s.nodes.isEmpty then (.error .stackIsEmpty, s)
  else
    let x := s.nodes.headD []
    let j := min index (s.nodes.length - 1)
    let y := Stack.walk s.nodes index
    (.ok ((s.length - 1, s.length - 1 - index), (x, y)),
     ⟨(s.nodes.set 0 y).set j x, s.length⟩)

/-- Model of `Stack::is_empty`: the `head` field is `None`. -/
def Stack.isEmpty (s : VStack) : Bool := s.nodes.isEmpty

/-- Model of `Stack::peek`. -/
def Stack.peek (s : VStack) : Option (List Char) := s.nodes.head?

/-- The mutating operations of `Stack`, for stating reachability invariants. -/
inductive StackOp where
  | push (item : List Char)
  | pop
  | dup (index : Nat)
  | swap (index : Nat)
deriving DecidableEq, Repr

/-- The stack state after one operation (the Rust methods mutate `&mut self`
on every path, including error paths). -/
def StackOp.apply (s : VStack) : StackOp → VStack
  | .push item => (Stack.push s item).2
  | .pop => (Stack.pop s).2
  | .dup index => (Stack.dup s index).2
  | .swap index => (Stack.swap s index).2

/-- The stack state after a sequence of operations. -/
def StackOp.applyAll (s : VStack) : List StackOp → VStack
  | [] => s
  | op :: ops => StackOp.applyAll (op.apply s) ops

/-! ## Memory (`memory.rs`) -/

/-- Model of `Memory::extend` appends `size` zero bytes. -/
def Memory.extendZeros (h : List Nat) (size : Nat) : List Nat :=
  h ++ List.replicate size 0

/-- Raw 32-byte write at `[loc, loc+32)` (the `*ptr = data.0` store). -/
def Memory.write32 (h : List Nat) (loc : Nat) (data : List Nat) : List Nat :=
  h.take loc ++ data ++ h.drop (loc + 32)

/-- Growth step shared by `mstore`: extend with zeros up to `target` when the
heap is shorter. -/
def Memory.grown (h : List Nat) (target : Nat) : List Nat :=
  if target > h.length then Memory.extendZeros h (target - h.length) else h

/-- Model of `Memory::mstore`: grow the heap to exactly `loc + 32` when needed, then
write the 32 bytes at `[loc, loc+32)`. -/
def Memory.mstore (h : List Nat) (loc : Nat) (data : List Nat) : List Nat :=
  Memory.write32 (Memory.grown h (loc + 32)) loc data

/-- The growth step of `Memory::mload`: when `loc + 32` exceeds the current
length, grow to `loc + 32` for a 32-aligned `loc` and to
`loc + 32 + loc % 32` otherwise. -/
def Memory.mloadHeap (h : List Nat) (loc : Nat) : List Nat :=
  if loc + 32 > h.length then
    if loc % 32 = 0 then Memory.extendZeros h (loc + 32 - h.length)
    else Memory.extendZeros h (loc + 32 + loc % 32 - h.length)
  else h

/-- Model of `Memory::mload`: grow as needed, then read the 32 bytes at
`[loc, loc+32)`.  Returns the bytes and the (possibly grown) heap. -/
def Memory.mload (h : List Nat) (loc : Nat) : List Nat × List Nat :=
  (((Memory.mloadHeap h loc).drop loc).take 32, Memory.mloadHeap h loc)

/-! ## Storage (`storage.rs`)

The `HashMap<Bytes32, Bytes32>` is modelled as an association list whose
`insert` prepends (lookup-equivalent to the hash map: the most recent binding
for a slot wins). -/

/-- Model of `Storage::sstore` (`HashMap::insert`, modulo iteration order). -/
def Storage.sstore (st : List (List Nat × List Nat)) (slot value : List Nat) :
    List (List Nat × List Nat) :=
  (slot, value) :: st

/-- Model of `Storage::sload` (`HashMap::get`): an explicit `Option`, `none` when the
slot was never written. -/
def Storage.sload (st : List (List Nat × List Nat)) (slot : List Nat) :
    Option (List Nat) :=
  (st.find? (fun p => p.1 = slot)).map (·.2)

/-! ## Lexer (`lexer.rs`)

The lexer state is the list of characters from the current `ch` onwards
(`Vm::run` performs the initial `read_char` before the loop). -/

/-- Model of `Lexer::new`: one `strip_prefix("0x")` followed by `trim()`, applied only
when the input starts with `0x`. -/
def Lexer.new (cs : List Char) : List Char :=
  match cs with
  | '0' :: 'x' :: rest =>
    ((rest.dropWhile Char.isWhitespace).reverse.dropWhile Char.isWhitespace).reverse
  | _ => cs

/-- The `'\0'` sentinel `read_char` produces past end-of-input. -/
def nulChar : Char := Char.ofNat 0

/-- Model of `Lexer::next_byte`: reads the current character and the next one, checks
whitespace, end-of-input, and hex-digit-ness in that order, and on success
leaves the cursor two characters further.  On error the cursor has advanced
by one (`read_char` was already called once). -/
def Lexer.nextByte (cs : List Char) :
    Except LexErr (Char × Char) × List Char :=
  if (cs.headD nulChar).isWhitespace ∨ (cs.tail.headD nulChar).isWhitespace then
    (.error .hasWhitespace, cs.tail)
  else if cs.headD nulChar = nulChar ∨ cs.tail.headD nulChar = nulChar then
    (.error .emptyChar, cs.tail)
  else if ¬ isHexChar (cs.headD nulChar) ∨ ¬ isHexChar (cs.tail.headD nulChar) then
    (.error .invalidNibble, cs.tail)
  else (.ok (cs.headD nulChar, cs.tail.headD nulChar), cs.tail.tail)

/-! ## Decoder (`instruction.rs`) -/

/-- Model of `InstructionType::from_str` on the numeric value of the two-hex-digit
token: fixed opcodes, `0x5f..=0x7f → PUSH(b % 0x5f)`,
`0x80..=0x8f → DUP(b % 0x80 + 1)`, `0x90..=0x9f → SWAP(b % 0x90 + 1)`. -/
def Instr.fromByte (b : Nat) (c1 c2 : Char) : Except InstrErr Instr :=
  if b = 0x00 then .ok .STOP
  else if b = 0x01 then .ok .ADD
  else if b = 0x02 then .ok .MUL
  else if b = 0x03 then .ok .SUB
  else if b = 0x04 then .ok .DIV
  else if b = 0x06 then .ok .MOD
  else if b = 0x0a then .ok .EXP
  else if b = 0x10 then .ok .LT
  else if b = 0x11 then .ok .GT
  else if b = 0x14 then .ok .EQ
  else if b = 0x15 then .ok .ISZERO
  else if b = 0x16 then .ok .AND
  else if b = 0x17 then .ok .OR
  else if b = 0x18 then .ok .XOR
  else if b = 0x19 then .ok .NOT
  else if b = 0x1a then .ok .BYTE
  else if b = 0x20 then .ok .KECCAK256
  else if b = 0x50 then .ok .POP
  else if b = 0x51 then .ok .MLOAD
  else if b = 0x52 then .ok .MSTORE
  else if b = 0x54 then .ok .SLOAD
  else if b = 0x55 then .ok .SSTORE
  else if 0x5f ≤ b ∧ b ≤ 0x7f then .ok (.PUSH (b % 0x5f))
  else if 0x80 ≤ b ∧ b ≤ 0x8f then .ok (.DUP (b % 0x80 + 1))
  else if 0x90 ≤ b ∧ b ≤ 0x9f then .ok (.SWAP (b % 0x90 + 1))
  else .error (.invalidInstruction c1 c2)

/-! ## Native `u128` arithmetic (`impl ... for Bytes32`, `utils/bytes32.rs`)

Every operator projects both operands to `u128` through the low 16 bytes and
re-encodes the native result.  Overflow, underflow and shift overflow abort
the process (overflow checks on), and division or remainder by zero always
aborts; no error value is produced. -/

def U128LIM : Nat := 2 ^ 128

def u128Add (a b : Nat) : Except Fault Nat :=
  if a + b < U128LIM then .ok (a + b) else .error (.crash .arithOverflow)

def u128Sub (a b : Nat) : Except Fault Nat :=
  if b ≤ a then .ok (a - b) else .error (.crash .arithOverflow)

def u128Mul (a b : Nat) : Except Fault Nat :=
  if a * b < U128LIM then .ok (a * b) else .error (.crash .arithOverflow)

def u128Div (a b : Nat) : Except Fault Nat :=
  if b = 0 then .error (.crash .divByZero) else .ok (a / b)

def u128Mod (a b : Nat) : Except Fault Nat :=
  if b = 0 then .error (.crash .divByZero) else .ok (a % b)

/-- Model of `u128::pow(a, b as u32)`: the exponent is truncated to 32 bits. -/
def u128Pow (a b : Nat) : Except Fault Nat :=
  let e := b % 2 ^ 32
  if a ^ e < U128LIM then .ok (a ^ e) else .error (.crash .arithOverflow)

def u128Shr (a b : Nat) : Except Fault Nat :=
  if b < 128 then .ok (Nat.shiftRight a b) else .error (.crash .shiftOverflow)

def u128And (a b : Nat) : Except Fault Nat := .ok (Nat.land a b)

def u128Or (a b : Nat) : Except Fault Nat := .ok (Nat.lor a b)

def u128Xor (a b : Nat) : Except Fault Nat := .ok (Nat.xor a b)

/-- Model of the external `tiny_keccak` 256-bit digest.  No claim observes a
digest value; only the shape — 32 output bytes, hex-encoded before the push —
is relied upon, so the permutation itself is left as a fixed function. -/
def keccakDigest (_data : List Nat) : List Nat := List.replicate 32 0

/-! ## Engine (`vm.rs`) -/

/-- The state owned by `Vm` (the optional trace is not modelled: the claims
run the engine as the tests do, with `verbose = false`). -/
structure VmState where
  stack : VStack
  lexer : List Char
  memory : List Nat
  storage : List (List Nat × List Nat)
deriving DecidableEq, Repr

/-- Model of `Vm::new(bytecode, false)`: empty stack, memory, storage; the lexer holds
the prefix-stripped program. -/
def Vm.init (program : List Char) : VmState :=
  ⟨VStack.empty, Lexer.new program, [], []⟩

/-- Model of `Vm::pop_first_item`: `ShallowStack` when the chain is empty, otherwise
pop and convert the popped string with `Bytes32::from_str`. -/
def Vm.popFirstItem (i : Instr) (s : VmState) :
    Except Fault (List Nat × VmState) :=
  if Stack.isEmpty s.stack then .error (.err (.vm (.shallowStack i)))
  else
    match Stack.pop s.stack with
    | (.error e, _) => .error (.err (.stack e))
    | (.ok (_, x), st) =>
      match Bytes32.fromStr x with
      | .error f => .error f
      | .ok a => .ok (a, { s with stack := st })

/-- Model of `Vm::pop_first_two_items`: `ShallowStack` when the `length` field is
below 2, then two pops followed by two conversions. -/
def Vm.popFirstTwoItems (i : Instr) (s : VmState) :
    Except Fault ((List Nat × List Nat) × VmState) :=
  if s.stack.length < 2 then .error (.err (.vm (.shallowStack i)))
  else
    match Stack.pop s.stack with
    | (.error e, _) => .error (.err (.stack e))
    | (.ok (_, x1), st1) =>
      match Stack.pop st1 with
      | (.error e, _) => .error (.err (.stack e))
      | (.ok (_, x2), st2) =>
        match Bytes32.fromStr x1 with
        | .error f => .error f
        | .ok a =>
          match Bytes32.fromStr x2 with
          | .error f => .error f
          | .ok b => .ok ((a, b), { s with stack := st2 })

/-- A push from the dispatch loop, propagating `StackError` as a fault. -/
def Vm.pushStr (s : VmState) (x : List Char) : Except Fault VmState :=
  match Stack.push s.stack x with
  | (.error e, _) => .error (.err (.stack e))
  | (.ok _, st) => .ok { s with stack := st }

/-- The shared shape of the `ADD/MUL/SUB/DIV/MOD/EXP/AND/OR/XOR` arms: pop
`a` (old top) then `b`, compute `f a b` in the `u128` domain, re-encode and
push `parse_and_trim` of the result. -/
def Vm.binWordOp (i : Instr) (f : Nat → Nat → Except Fault Nat) (s : VmState) :
    Except Fault (Bool × VmState) :=
  match Vm.popFirstTwoItems i s with
  | .error f' => .error f'
  | .ok ((a, b), s') =>
    match f (toU128 a) (toU128 b) with
    | .error f' => .error f'
    | .ok r =>
      match Vm.pushStr s' (Bytes32.parseAndTrim (fromU128 r)) with
      | .error f' => .error f'
      | .ok s'' => .ok (true, s'')

/-- The shared shape of the `LT/GT/EQ` arms: pop `a` then `b` and push the
`{:x}` rendering of the boolean, `"1"` or `"0"`. -/
def Vm.cmpOp (i : Instr) (f : List Nat → List Nat → Bool) (s : VmState) :
    Except Fault (Bool × VmState) :=
  match Vm.popFirstTwoItems i s with
  | .error f' => .error f'
  | .ok ((a, b), s') =>
    match Vm.pushStr s' (if f a b then ['1'] else ['0']) with
    | .error f' => .error f'
    | .ok s'' => .ok (true, s'')

/-- The `PUSH(n)` immediate read: `n` calls to `next_byte`, concatenated. -/
def Lexer.readBytes : Nat → List Char → Except LexErr (List Char) × List Char
  | 0, cs => (.ok [], cs)
  | n + 1, cs =>
    match Lexer.nextByte cs with
    | (.error e, cs') => (.error e, cs')
    | (.ok (c1, c2), cs') =>
      match Lexer.readBytes n cs' with
      | (.error e, cs'') => (.error e, cs'')
      | (.ok ds, cs'') => (.ok (c1 :: c2 :: ds), cs'')

/-- One dispatch-loop iteration after decoding (`match instruction` in
`Vm::run`).  Returns `false` in the first component exactly when the loop
breaks (`STOP`). -/
def Vm.execInstr (i : Instr) (s : VmState) : Except Fault (Bool × VmState) :=
  match i with
  | .STOP => .ok (false, s)
  | .ADD => Vm.binWordOp .ADD u128Add s
  | .MUL => Vm.binWordOp .MUL u128Mul s
  | .SUB => Vm.binWordOp .SUB u128Sub s
  | .DIV => Vm.binWordOp .DIV u128Div s
  | .MOD => Vm.binWordOp .MOD u128Mod s
  | .EXP => Vm.binWordOp .EXP u128Pow s
  | .LT => Vm.cmpOp .LT (fun a b => toU128 a < toU128 b) s
  | .GT => Vm.cmpOp .GT (fun a b => toU128 b < toU128 a) s
  | .EQ => Vm.cmpOp .EQ (fun a b => a = b) s
  | .ISZERO =>
    match Vm.popFirstItem .ISZERO s with
    | .error f => .error f
    | .ok (a, s') =>
      match Vm.pushStr s' (if a = zeroWord then ['1'] else ['0']) with
      | .error f => .error f
      | .ok s'' => .ok (true, s'')
  | .AND => Vm.binWordOp .AND u128And s
  | .OR => Vm.binWordOp .OR u128Or s
  | .XOR => Vm.binWordOp .XOR u128Xor s
  | .NOT =>
    match Vm.popFirstItem .NOT s with
    | .error f => .error f
    | .ok (a, s') =>
      let asBool := a.getD 31 0 ≠ 0
      match Vm.pushStr s' (Bytes32.parseAndTrim (fromBool (¬ asBool))) with
      | .error f => .error f
      | .ok s'' => .ok (true, s'')
  | .BYTE =>
    match Vm.popFirstTwoItems .BYTE s with
    | .error f => .error f
    | .ok ((a, b), s') =>
      if toU128 a < 32 then
        match u128Shr (toU128 b) (8 * (31 - toU128 a)) with
        | .error f => .error f
        | .ok sh =>
          match Vm.pushStr s' (Bytes32.parseAndTrim (fromU128 (Nat.land sh 0xff))) with
          | .error f => .error f
          | .ok s'' => .ok (true, s'')
      else
        match Vm.pushStr s' (Bytes32.parseAndTrim (fromU128 0)) with
        | .error f => .error f
        | .ok s'' => .ok (true, s'')
  | .KECCAK256 =>
    match Vm.popFirstItem .KECCAK256 s with
    | .error f => .error f
    | .ok (a, s') =>
      let data := a.dropWhile (fun b => b = 0)
      match Vm.pushStr s' (hexEncode (keccakDigest data)) with
      | .error f => .error f
      | .ok s'' => .ok (true, s'')
  | .POP =>
    match Vm.popFirstItem .POP s with
    | .error f => .error f
    | .ok (_, s') => .ok (true, s')
  | .MLOAD =>
    match Vm.popFirstItem .MLOAD s with
    | .error f => .error f
    | .ok (a, s') =>
      let res := Memory.mload s'.memory (toUsize a)
      match Vm.pushStr { s' with memory := res.2 } (hexEncode res.1) with
      | .error f => .error f
      | .ok s'' => .ok (true, s'')
  | .MSTORE =>
    match Vm.popFirstTwoItems .MSTORE s with
    | .error f => .error f
    | .ok ((a, b), s') =>
      .ok (true, { s' with memory := Memory.mstore s'.memory (toUsize a) b })
  | .SLOAD =>
    match Vm.popFirstItem .SLOAD s with
    | .error f => .error f
    | .ok (a, s') =>
      match Storage.sload s'.storage a with
      | none => .error (.crash .unwrapNone)
      | some v =>
        match Vm.pushStr s' (Bytes32.toHexString v) with
        | .error f => .error f
        | .ok s'' => .ok (true, s'')
  | .SSTORE =>
    match Vm.popFirstTwoItems .SSTORE s with
    | .error f => .error f
    | .ok ((a, b), s') =>
      .ok (true, { s' with storage := Storage.sstore s'.storage a b })
  | .PUSH n =>
    if n > 32 then .error (.err (.vm (.incompatibleSize (.PUSH n))))
    else if n = 0 then
      match Vm.pushStr s ['0'] with
      | .error f => .error f
      | .ok s' => .ok (true, s')
    else
      match Lexer.readBytes n s.lexer with
      | (.error e, _) => .error (.err (.lex e))
      | (.ok data, lex') =>
        match Vm.pushStr { s with lexer := lex' } data with
        | .error f => .error f
        | .ok s' => .ok (true, s')
  | .DUP n =>
    if n = 0 ∨ n > 16 then .error (.err (.vm (.incompatibleSize (.DUP n))))
    else
      match Stack.dup s.stack n with
      | (.error e, _) => .error (.err (.stack e))
      | (.ok _, st) => .ok (true, { s with stack := st })
  | .SWAP n =>
    if n = 0 ∨ n > 16 then .error (.err (.vm (.incompatibleSize (.SWAP n))))
    else
      match Stack.swap s.stack n with
      | (.error e, _) => .error (.err (.stack e))
      | (.ok _, st) => .ok (true, { s with stack := st })

/-- The fetch-decode-execute loop of `Vm::run`, with explicit fuel (`none`
means the fuel ran out, never reached on the concrete programs below).  The
loop exits normally when the lexer is exhausted (`ch == '\0'`). -/
def Vm.runLoop : Nat → VmState → Option (Except Fault VmState)
  | 0, _ => none
  | fuel + 1, s =>
    match s.lexer with
    | [] => some (.ok s)
    | c :: _ =>
      if c = nulChar then some (.ok s)
      else
        match Lexer.nextByte s.lexer with
        | (.error e, _) => some (.error (.err (.lex e)))
        | (.ok (c1, c2), lexRest) =>
          match hexCharVal c1, hexCharVal c2 with
          | some hi, some lo =>
            match Instr.fromByte (16 * hi + lo) c1 c2 with
            | .error e => some (.error (.err (.instr e)))
            | .ok i =>
              match Vm.execInstr i { s with lexer := lexRest } with
              | .error f => some (.error f)
              | .ok (cont, s') =>
                if cont then Vm.runLoop fuel s' else some (.ok s')
          | _, _ => some (.error (.crash .unwrapNone))

/-- Model of `Vm::new(program, false)` followed by `run()`, with the given fuel. -/
def Vm.runProgram (fuel : Nat) (program : List Char) :
    Option (Except Fault VmState) :=
  Vm.runLoop fuel (Vm.init program)

/-! ## Invariant predicates -/

/-- The shape of every string the dispatch loop stores on the stack: a
non-empty string of at most 64 ASCII hex digits. -/
def GoodStr (cs : List Char) : Prop :=
  cs ≠ [] ∧ cs.length ≤ 64 ∧ ∀ c ∈ cs, isHexChar c

/-- Every entry of a byte buffer is an actual byte. -/
def GoodBytes (bs : List Nat) : Prop := ∀ b ∈ bs, b < 256

/-- A well-formed 32-byte word. -/
def GoodWord (w : List Nat) : Prop := w.length = 32 ∧ GoodBytes w

/-- The engine-state invariant: every stack element is a `GoodStr`, the heap
holds bytes, and every stored value is a well-formed word. -/
def GoodState (s : VmState) : Prop :=
  (∀ x ∈ s.stack.nodes, GoodStr x) ∧ GoodBytes s.memory ∧
  ∀ p ∈ s.storage, GoodWord p.2

instance (cs : List Char) : Decidable (GoodStr cs) := by
  unfold GoodStr; infer_instance

instance (bs : List Nat) : Decidable (GoodBytes bs) := by
  unfold GoodBytes; infer_instance

instance (w : List Nat) : Decidable (GoodWord w) := by
  unfold GoodWord; infer_instance

instance (s : VmState) : Decidable (GoodState s) := by
  unfold GoodState; infer_instance

/-! ## Claim theorems -/

/-- Claim C1.  The claim states that `dup(n)` with `n < length` leaves every
existing entry and their relative order unchanged, appends one new top equal
to the entry `n` below the old top, and returns that new element's
bottom-index and value.  On the stack `[bb, aa]` (top `aa`), `dup 1` instead
returns bottom-index `0` — the source entry's index, not the new element's
index `2` — and leaves a chain holding only the copied entry `bb`: the
original entries are destroyed, not preserved.  The error branch
(`StackSizeExceeded` for `n ≥ length`) is the only part the code honours. -/
theorem dup_code_bug_destroys_entries :
    Stack.dup ⟨[['a', 'a'], ['b', 'b']], 2⟩ 1 =
      (Except.ok (0, ['b', 'b']), ⟨[['b', 'b']], 3⟩) ∧
    ([['b', 'b']] : List (List Char)) ≠ [['b', 'b'], ['a', 'a'], ['b', 'b']] ∧
    (0 : Nat) ≠ 2 ∧
    (Stack.dup ⟨[['a', 'a'], ['b', 'b']], 2⟩ 5).1 =
      Except.error StackErr.stackSizeExceeded := by
  refine ⟨rfl, by decide, by decide, rfl⟩

/-- Claim C2.  The claim states that `pop()` on a stack of length `L` returns
the popped top together with its pre-removal bottom-index `L - 1`.  The code
returns the literal constant `1` as the index: popping a singleton stack
(`L = 1`, so the pre-removal index is `0`) yields index `1`.  The underflow
branch on the empty stack is honoured. -/
theorem pop_code_bug_constant_index :
    Stack.pop ⟨[['f', 'f']], 1⟩ = (Except.ok (1, ['f', 'f']), ⟨[], 0⟩) ∧
    (1 : Nat) ≠ 1 - 1 ∧
    (Stack.pop VStack.empty).1 = Except.error StackErr.stackUnderflow := by
  refine ⟨rfl, by decide, rfl⟩

/-- Claim C4.  The claim states that DIV or MOD with a zero divisor aborts
the run with a `DivisionByZero` error surfaced as an error value.  Running
`6000600504` (PUSH1 0, PUSH1 5, DIV — divisor is the second pop, the zero
word) instead aborts the process through the native `u128` division, a crash
rather than a returned error value (no `DivisionByZero` variant exists in
the code); MOD behaves the same way. -/
theorem div_mod_by_zero_crashes :
    Vm.runProgram 10 "6000600504".data =
      some (Except.error (Fault.crash CrashKind.divByZero)) ∧
    Vm.runProgram 10 "6000600506".data =
      some (Except.error (Fault.crash CrashKind.divByZero)) := by
  refine ⟨rfl, rfl⟩

/-- Claim C5.  `Storage::sload` does return an explicit absent indicator
(`none`), but the SLOAD arm of `Vm::run` calls `.unwrap()` on it: executing
SLOAD on a never-written slot (program `600054` with empty storage) aborts
the process instead of surfacing a terminal error value to the caller. -/
theorem sload_absent_code_bug_crashes :
    Storage.sload [] zeroWord = none ∧
    Vm.runProgram 10 "600054".data =
      some (Except.error (Fault.crash CrashKind.unwrapNone)) := by
  refine ⟨rfl, rfl⟩

/-- Claim C6.  The claim states that NOT pops `w` and pushes the bitwise
complement of `w` under the `u128` projection.  The code instead converts
`w` to a boolean (low byte non-zero) and pushes the negated boolean: running
`600019` (PUSH1 0, NOT) leaves `"1"` on the stack, whereas the re-encoded
native complement of the projected zero word is the 32-character string of
`f` digits. -/
theorem not_code_bug_boolean_negation :
    Vm.runProgram 10 "600019".data =
      some (Except.ok ⟨⟨[['1']], 1⟩, [], [], []⟩) ∧
    Bytes32.parseAndTrim (fromU128 (U128LIM - 1 - toU128 zeroWord)) ≠ ['1'] := by
  refine ⟨rfl, by decide⟩

/-- The operation `push` keeps the `length` field within the limit. -/
theorem Stack.push_state_length_le (s : VStack) (item : List Char)
    (h : s.length ≤ STACK_SIZE_LIMIT) :
    (Stack.push s item).2.length ≤ STACK_SIZE_LIMIT := by
  simp only [Stack.push]
  split
  · exact h
  · simp only
    omega

/-- One stack operation never raises the `length` field above the limit:
`push` is the only increment and it refuses at exactly 1024 (the inner push
of `dup` included). -/
theorem StackOp.apply_length_le (s : VStack) (op : StackOp)
    (h : s.length ≤ STACK_SIZE_LIMIT) :
    (op.apply s).length ≤ STACK_SIZE_LIMIT := by
  cases op with
  | push item => exact Stack.push_state_length_le s item h
  | pop =>
    simp only [StackOp.apply, Stack.pop]
    match s.nodes with
    | [] => exact h
    | x :: rest => simp only; omega
  | dup index =>
    simp only [StackOp.apply, Stack.dup]
    split
    · exact h
    · split
      · exact h
      · split <;> rename_i s' heq <;>
        · have hp := Stack.push_state_length_le ⟨[], s.length⟩
            (Stack.walk s.nodes index) h
          rw [heq] at hp
          simpa using hp
  | swap index =>
    simp only [StackOp.apply, Stack.swap]
    split
    · exact h
    · split
      · exact h
      · split
        · exact h
        · exact h

/-- Any operation sequence from a state within the limit stays within it. -/
theorem StackOp.applyAll_length_le (ops : List StackOp) (s : VStack)
    (h : s.length ≤ STACK_SIZE_LIMIT) :
    (StackOp.applyAll s ops).length ≤ STACK_SIZE_LIMIT := by
  induction ops generalizing s with
  | nil => exact h
  | cons op ops ih =>
    exact ih (op.apply s) (StackOp.apply_length_le s op h)

/-- Claim C7.  `push` on a stack whose `length` field is exactly 1024 fails
with `StackOverflow` and leaves the stack unchanged; `push` on any shorter
stack appends the element as the new top; and the stack depth of every state
reachable from the empty stack through the stack's mutating operations never
exceeds 1024. -/
theorem stack_depth_limit :
    (∀ s item, s.length = STACK_SIZE_LIMIT →
       Stack.push s item = (Except.error StackErr.stackOverflow, s)) ∧
    (∀ s item, s.length < STACK_SIZE_LIMIT →
       Stack.push s item = (Except.ok s.length, ⟨item :: s.nodes, s.length + 1⟩)) ∧
    (∀ ops, (StackOp.applyAll VStack.empty ops).length ≤ STACK_SIZE_LIMIT) := by
  refine ⟨?_, ?_, ?_⟩
  · intro s item h
    simp [Stack.push, h]
  · intro s item h
    have : s.length ≠ STACK_SIZE_LIMIT := Nat.ne_of_lt h
    simp [Stack.push, this]
  · intro ops
    exact StackOp.applyAll_length_le ops VStack.empty (by decide)

/-- Witness for C7 at concrete inputs: a full stack of 1024 entries rejects
a push, the empty stack accepts one, and a concrete operation sequence stays
within the limit. -/
theorem stack_depth_limit_witness :
    Stack.push ⟨List.replicate 1024 ['f'], 1024⟩ ['0'] =
      (Except.error StackErr.stackOverflow, ⟨List.replicate 1024 ['f'], 1024⟩) ∧
    Stack.push VStack.empty ['0'] = (Except.ok 0, ⟨[['0']], 1⟩) ∧
    (StackOp.applyAll VStack.empty
        [StackOp.push ['f'], StackOp.push ['0'], StackOp.pop]).length ≤
      STACK_SIZE_LIMIT :=
  ⟨stack_depth_limit.1 _ _ rfl,
   stack_depth_limit.2.1 VStack.empty ['0'] (by decide),
   stack_depth_limit.2.2 _⟩

/-- Length of the grown heap. -/
theorem Memory.grown_length (h : List Nat) (t : Nat) :
    (Memory.grown h t).length = max h.length t := by
  simp only [Memory.grown, Memory.extendZeros]
  split
  · simp only [List.length_append, List.length_replicate]
    omega
  · omega

/-- The operation `mstore` produces a heap of length `max h.length (loc + 32)`. -/
theorem Memory.mstore_length (h : List Nat) (loc : Nat) (data : List Nat)
    (hd : data.length = 32) :
    (Memory.mstore h loc data).length = max h.length (loc + 32) := by
  simp only [Memory.mstore, Memory.write32, List.length_append,
    List.length_take, List.length_drop, Memory.grown_length, hd]
  omega

/-- Claim C9.  For every address and every 32-byte word, `mstore` followed by
`mload` at the same address returns exactly the 32 stored bytes, the load
performs no further extension (the stored heap already satisfies
`loc + 32 ≤ length`, so both accesses stay within the current length), and
the heap is returned unchanged by the load. -/
theorem mstore_then_mload (h : List Nat) (loc : Nat) (data : List Nat)
    (hd : data.length = 32) :
    Memory.mload (Memory.mstore h loc data) loc =
      (data, Memory.mstore h loc data) ∧
    loc + 32 ≤ (Memory.mstore h loc data).length := by
  have hlen := Memory.mstore_length h loc data hd
  have hle : loc + 32 ≤ (Memory.mstore h loc data).length := by omega
  refine ⟨?_, hle⟩
  have htl : ((Memory.grown h (loc + 32)).take loc).length = loc := by
    rw [List.length_take]
    have := Memory.grown_length h (loc + 32)
    omega
  have hdrop := List.drop_left ((Memory.grown h (loc + 32)).take loc)
    (data ++ (Memory.grown h (loc + 32)).drop (loc + 32))
  rw [htl] at hdrop
  have htake := List.take_left data ((Memory.grown h (loc + 32)).drop (loc + 32))
  rw [hd] at htake
  have hheap : Memory.mloadHeap (Memory.mstore h loc data) loc =
      Memory.mstore h loc data := by
    unfold Memory.mloadHeap
    rw [if_neg (by omega)]
  simp only [Memory.mload, hheap, Prod.mk.injEq]
  refine ⟨?_, trivial⟩
  calc ((Memory.mstore h loc data).drop loc).take 32
      = ((((Memory.grown h (loc + 32)).take loc) ++
          (data ++ (Memory.grown h (loc + 32)).drop (loc + 32))).drop loc).take 32 := by
        simp only [Memory.mstore, Memory.write32, List.append_assoc]
    _ = (data ++ (Memory.grown h (loc + 32)).drop (loc + 32)).take 32 := by
        rw [hdrop]
    _ = data := htake

/-- Witness for C9 at a concrete input: an empty heap, address 5 and the
word of 32 bytes equal to 7. -/
theorem mstore_then_mload_witness :
    Memory.mload (Memory.mstore [] 5 (List.replicate 32 7)) 5 =
      (List.replicate 32 7, Memory.mstore [] 5 (List.replicate 32 7)) ∧
    5 + 32 ≤ (Memory.mstore [] 5 (List.replicate 32 7)).length :=
  mstore_then_mload [] 5 (List.replicate 32 7) (by decide)

/-- The map `hexCharVal` inverts `hexDigitChar` on digit values. -/
theorem hexCharVal_hexDigitChar (d : Nat) (h : d < 16) :
    hexCharVal (hexDigitChar d) = some d := by
  interval_cases d <;> decide

/-- No digit value encodes to the character `x`. -/
theorem hexDigitChar_ne_x (d : Nat) (h : d < 16) : hexDigitChar d ≠ 'x' := by
  interval_cases d <;> decide

/-- Every digit value encodes to an ASCII hex digit. -/
theorem isHexChar_hexDigitChar (d : Nat) (h : d < 16) :
    isHexChar (hexDigitChar d) = true := by
  interval_cases d <;> decide

theorem hexEncode_cons (b : Nat) (bs : List Nat) :
    hexEncode (b :: bs) =
      hexDigitChar (b / 16) :: hexDigitChar (b % 16) :: hexEncode bs := by
  simp [hexEncode]

theorem hexEncode_length (bs : List Nat) :
    (hexEncode bs).length = 2 * bs.length := by
  induction bs with
  | nil => rfl
  | cons b bs ih =>
    rw [hexEncode_cons]
    simp only [List.length_cons, ih]
    omega

/-- Decoding inverts encoding on byte lists. -/
theorem hexDecode_hexEncode (bs : List Nat) (hb : ∀ b ∈ bs, b < 256) :
    hexDecode (hexEncode bs) = some bs := by
  induction bs with
  | nil => rfl
  | cons b bs ih =>
    have hb0 : b < 256 := hb b (by simp)
    have h1 : b / 16 < 16 := by omega
    have h2 : b % 16 < 16 := by omega
    rw [hexEncode_cons]
    simp only [hexDecode, hexCharVal_hexDigitChar _ h1,
      hexCharVal_hexDigitChar _ h2, ih (fun x hx => hb x (by simp [hx]))]
    have : 16 * (b / 16) + b % 16 = b := by omega
    rw [this]

/-- The `0x`-stripping step never fires on an encoded byte list: the second
character is a hex digit, never `x`. -/
theorem dropZeroX_hexEncode (b : Nat) (bs : List Nat) :
    dropZeroX (hexEncode (b :: bs)) = hexEncode (b :: bs) := by
  have hx : hexDigitChar (b % 16) ≠ 'x' := hexDigitChar_ne_x _ (by omega)
  rw [hexEncode_cons]
  simp only [dropZeroX]
  rw [if_neg]
  intro hcon
  exact hx hcon.2

/-- Claim C8.  For every 32-byte word, `to_hex_string` renders exactly 64 hex
characters, and `Bytes32::from_str` on that rendering returns the original
word: `parse(to_hex_string(w)) = w`. -/
theorem word_hex_roundtrip (w : List Nat) (hw : w.length = 32)
    (hb : ∀ b ∈ w, b < 256) :
    (Bytes32.toHexString w).length = 64 ∧
    Bytes32.fromStr (Bytes32.toHexString w) = Except.ok w := by
  refine ⟨by rw [Bytes32.toHexString, hexEncode_length, hw], ?_⟩
  cases w with
  | nil => simp at hw
  | cons b rest =>
    simp only [Bytes32.toHexString, Bytes32.fromStr,
      dropZeroX_hexEncode b rest,
      hexDecode_hexEncode _ hb]
    rw [if_pos (by omega)]
    rw [hw]
    simp

/-- Witness for C8 at a concrete input: the zero word round-trips. -/
theorem word_hex_roundtrip_witness :
    (Bytes32.toHexString zeroWord).length = 64 ∧
    Bytes32.fromStr (Bytes32.toHexString zeroWord) = Except.ok zeroWord :=
  word_hex_roundtrip zeroWord (by decide) (by decide)

/-- Claim C3.  The SUB arm pops the old top `a` first, the next operand `b`
second, and pushes `a - b` (first-popped minus second-popped) in the `u128`
projection; in particular the program `600a601403` (PUSH1 0x0a, PUSH1 0x14,
SUB) leaves the word `a` (decimal 10) on top of the stack. -/
theorem sub_operand_order :
    (∀ (str1 str2 : List Char) (rest : List (List Char)) (lex : List Char)
       (mem : List Nat) (stor : List (List Nat × List Nat)) (a b : List Nat),
       Bytes32.fromStr str1 = Except.ok a →
       Bytes32.fromStr str2 = Except.ok b →
       toU128 b ≤ toU128 a →
       rest.length + 2 ≤ STACK_SIZE_LIMIT →
       Vm.execInstr Instr.SUB
           ⟨⟨str1 :: str2 :: rest, rest.length + 2⟩, lex, mem, stor⟩ =
         Except.ok (true,
           ⟨⟨Bytes32.parseAndTrim (fromU128 (toU128 a - toU128 b)) :: rest,
             rest.length + 1⟩, lex, mem, stor⟩)) ∧
    Vm.runProgram 9 "600a601403".data =
      some (Except.ok ⟨⟨[['a']], 1⟩, [], [], []⟩) := by
  refine ⟨?_, rfl⟩
  intro str1 str2 rest lex mem stor a b h1 h2 hba hlim
  have hlim' : rest.length + 2 ≤ 1024 := hlim
  have hnot2 : ¬ ((rest.length + 2 : Nat) < 2) := by omega
  have hne : ¬ ((rest.length : Nat) = 1024) := by omega
  have heq : rest.length + 2 - 1 - 1 = rest.length := by omega
  simp only [Vm.execInstr, Vm.binWordOp, Vm.popFirstTwoItems, Stack.pop,
    Vm.pushStr, Stack.push, u128Sub, STACK_SIZE_LIMIT, h1, h2,
    if_pos hba, if_neg hnot2, heq, if_neg hne]

/-- Witness for C3 at a concrete input: SUB on the stack holding `"14"`
above `"0a"` pushes the trimmed rendering of 20 − 10. -/
theorem sub_operand_order_witness :
    Vm.execInstr Instr.SUB ⟨⟨[['1', '4'], ['0', 'a']], 2⟩, [], [], []⟩ =
      Except.ok (true, ⟨⟨[['a']], 1⟩, [], [], []⟩) := by
  have h := sub_operand_order.1 ['1', '4'] ['0', 'a'] [] [] [] []
    (List.replicate 31 0 ++ [20]) (List.replicate 31 0 ++ [10])
    rfl rfl (by decide) (by decide)
  exact h

/-- Counterexample for C10.  Running `600a601403` reaches a final state whose
only stack element is the odd-length string `"a"`, and `Bytes32::from_str`
fails on it (`hex::decode` rejects odd length); consuming that element with
a further opcode (`600a60140315`, ISZERO at the end) accordingly aborts the
run with `InvalidStr` — converting a stack element back into a word does not
always succeed. -/
theorem stack_element_fromStr_fails :
    Vm.runProgram 9 "600a601403".data =
      some (Except.ok ⟨⟨[['a']], 1⟩, [], [], []⟩) ∧
    Bytes32.fromStr ['a'] =
      Except.error (Fault.err (RunErr.bytes32 Bytes32Err.invalidStr)) ∧
    Vm.runProgram 10 "600a60140315".data =
      some (Except.error (Fault.err (RunErr.bytes32 Bytes32Err.invalidStr))) := by
  refine ⟨rfl, rfl, rfl⟩

/-- A hex digit's value is below 16. -/
theorem hexCharVal_lt (c : Char) (v : Nat) (h : hexCharVal c = some v) :
    v < 16 := by
  unfold hexCharVal at h
  split at h
  · rename_i hc
    simp only [Bool.and_eq_true, decide_eq_true_eq] at hc
    injection h with h
    omega
  · split at h
    · rename_i hc
      simp only [Bool.and_eq_true, decide_eq_true_eq] at hc
      injection h with h
      omega
    · split at h
      · rename_i hc
        simp only [Bool.and_eq_true, decide_eq_true_eq] at hc
        injection h with h
        omega
      · exact absurd h (by simp)

/-- The decoder `hex::decode` only produces bytes. -/
theorem hexDecode_good (cs : List Char) (bs : List Nat)
    (h : hexDecode cs = some bs) : GoodBytes bs := by
  induction cs using hexDecode.induct generalizing bs with
  | case1 =>
    simp only [hexDecode] at h
    injection h with h
    subst h
    intro b hb
    cases hb
  | case2 c =>
    simp only [hexDecode] at h
    exact absurd h (by simp)
  | case3 c1 c2 rest hhi hlo htl hrest hvc2 hvc1 ih =>
    simp only [hexDecode, hvc1, hvc2, hrest] at h
    injection h with h
    subst h
    intro b hb
    cases hb with
    | head =>
      have := hexCharVal_lt c1 _ hvc1
      have := hexCharVal_lt c2 _ hvc2
      omega
    | tail _ hmem => exact ih _ hrest b hmem
  | case4 c1 c2 rest hne ih =>
    simp only [hexDecode] at h
    exact absurd h (by simp)

/-- The parser `Bytes32::from_str` only returns well-formed 32-byte words. -/
theorem Bytes32.fromStr_good (cs : List Char) (w : List Nat)
    (h : Bytes32.fromStr cs = Except.ok w) : GoodWord w := by
  unfold Bytes32.fromStr at h
  rcases hd : hexDecode (dropZeroX cs) with _ | bs
  · simp only [hd] at h
    exact absurd h (by simp)
  · simp only [hd] at h
    split at h
    · rename_i hlen
      injection h with h
      subst h
      constructor
      · simp only [List.length_append, List.length_replicate]
        omega
      · intro b hb
        rcases List.mem_append.1 hb with hb | hb
        · have := List.eq_of_mem_replicate hb
          omega
        · exact hexDecode_good _ _ hd b hb
    · exact absurd h (by simp)

/-- Every character of an encoded byte buffer is a hex digit. -/
theorem hexEncode_all_hex (bs : List Nat) (hb : GoodBytes bs) :
    ∀ c ∈ hexEncode bs, isHexChar c := by
  induction bs with
  | nil => intro c hc; simp [hexEncode] at hc
  | cons b t ih =>
    have hb0 : b < 256 := hb b (by simp)
    rw [hexEncode_cons]
    intro c hc
    simp only [List.mem_cons] at hc
    rcases hc with rfl | rfl | hc
    · exact isHexChar_hexDigitChar _ (by omega)
    · exact isHexChar_hexDigitChar _ (by omega)
    · exact ih (fun x hx => hb x (by simp [hx])) c hc

/-- Hex-encoding a well-formed word yields a `GoodStr` of 64 characters. -/
theorem hexEncode_goodStr (w : List Nat) (hw : GoodWord w) :
    GoodStr (hexEncode w) := by
  have hlen : (hexEncode w).length = 64 := by
    rw [hexEncode_length, hw.1]
  refine ⟨?_, by omega, hexEncode_all_hex w hw.2⟩
  intro hnil
  rw [hnil] at hlen
  exact absurd hlen (by decide)

/-- Applying `parse_and_trim` to a well-formed word yields a `GoodStr`. -/
theorem parseAndTrim_goodStr (w : List Nat) (hw : GoodWord w) :
    GoodStr (Bytes32.parseAndTrim w) := by
  have hgs := hexEncode_goodStr w hw
  unfold Bytes32.parseAndTrim
  by_cases hnil : (hexEncode w).dropWhile (fun c => c = '0') = []
  · simp only [hnil, if_pos rfl]
    exact ⟨by simp, by simp, by decide⟩
  · simp only [if_neg hnil]
    refine ⟨hnil, ?_, ?_⟩
    · calc ((hexEncode w).dropWhile (fun c => c = '0')).length
          ≤ (hexEncode w).length := (List.dropWhile_sublist _).length_le
        _ ≤ 64 := hgs.2.1
    · intro c hc
      exact hgs.2.2 c ((List.dropWhile_sublist _).subset hc)

theorem natToBe_length (k n : Nat) : (natToBe k n).length = k := by
  induction k generalizing n with
  | zero => rfl
  | succ k ih => simp [natToBe, ih]

theorem natToBe_good (k n : Nat) : GoodBytes (natToBe k n) := by
  induction k generalizing n with
  | zero => intro b hb; cases hb
  | succ k ih =>
    intro b hb
    simp only [natToBe] at hb
    rcases List.mem_append.1 hb with hb | hb
    · exact ih _ b hb
    · simp only [List.mem_singleton] at hb
      omega

/-- The conversion `From<u128>` produces a well-formed word. -/
theorem fromU128_goodWord (n : Nat) : GoodWord (fromU128 n) := by
  constructor
  · simp [fromU128, natToBe_length]
  · intro b hb
    rcases List.mem_append.1 hb with hb | hb
    · have := List.eq_of_mem_replicate hb
      omega
    · exact natToBe_good 16 n b hb

/-- The conversion `From<bool>` produces a well-formed word. -/
theorem fromBool_goodWord (b : Bool) : GoodWord (fromBool b) := by
  cases b <;> decide

/-- The walked-to node is an element of the chain. -/
theorem Stack.walk_mem (nodes : List (List Char)) (index : Nat)
    (hne : nodes ≠ []) : Stack.walk nodes index ∈ nodes := by
  unfold Stack.walk
  have hlen : 0 < nodes.length := List.length_pos.2 hne
  have hlt : min index (nodes.length - 1) < nodes.length := by omega
  rw [List.getD_eq_getElem nodes [] hlt]
  exact List.getElem_mem hlt

/-- The helper `pop_first_item` preserves the state invariant and yields a well-formed
word. -/
theorem Vm.popFirstItem_good (i : Instr) (s : VmState) (a : List Nat)
    (s' : VmState) (hg : GoodState s)
    (h : Vm.popFirstItem i s = Except.ok (a, s')) :
    GoodState s' ∧ GoodWord a := by
  unfold Vm.popFirstItem at h
  split at h
  · exact absurd h (by simp)
  · rename_i hemp
    rcases hn : s.stack.nodes with _ | ⟨x, rest⟩
    · exact absurd (by rw [Stack.isEmpty, hn]; rfl) hemp
    · rcases hf : Bytes32.fromStr x with f | w
      · simp only [Stack.pop, hn, hf] at h
        exact absurd h (by simp)
      · simp only [Stack.pop, hn, hf, Except.ok.injEq, Prod.mk.injEq] at h
        obtain ⟨ha, hs⟩ := h
        subst ha
        subst hs
        refine ⟨⟨?_, hg.2.1, hg.2.2⟩, Bytes32.fromStr_good x _ hf⟩
        intro y hy
        exact hg.1 y (by rw [hn]; exact List.mem_cons_of_mem x hy)

/-- The helper `pop_first_two_items` preserves the state invariant and yields two
well-formed words. -/
theorem Vm.popFirstTwoItems_good (i : Instr) (s : VmState)
    (a b : List Nat) (s' : VmState) (hg : GoodState s)
    (h : Vm.popFirstTwoItems i s = Except.ok ((a, b), s')) :
    GoodState s' ∧ GoodWord a ∧ GoodWord b := by
  unfold Vm.popFirstTwoItems at h
  split at h
  · exact absurd h (by simp)
  · rcases hn : s.stack.nodes with _ | ⟨x, rest⟩
    · simp only [Stack.pop, hn] at h
      exact absurd h (by simp)
    · rcases hr : rest with _ | ⟨y, rest2⟩
      · simp only [Stack.pop, hn, hr] at h
        exact absurd h (by simp)
      · rcases hf1 : Bytes32.fromStr x with f | wa
        · simp only [Stack.pop, hn, hr, hf1] at h
          exact absurd h (by simp)
        · rcases hf2 : Bytes32.fromStr y with f | wb
          · simp only [Stack.pop, hn, hr, hf1, hf2] at h
            exact absurd h (by simp)
          · simp only [Stack.pop, hn, hr, hf1, hf2, Except.ok.injEq,
              Prod.mk.injEq] at h
            obtain ⟨⟨ha, hb⟩, hs⟩ := h
            subst ha
            subst hb
            subst hs
            refine ⟨⟨?_, hg.2.1, hg.2.2⟩, Bytes32.fromStr_good x _ hf1,
              Bytes32.fromStr_good y _ hf2⟩
            intro z hz
            refine hg.1 z ?_
            rw [hn, hr]
            exact List.mem_cons_of_mem x (List.mem_cons_of_mem y hz)

/-- A successful dispatch-loop push of a `GoodStr` preserves the invariant. -/
theorem Vm.pushStr_good (s : VmState) (x : List Char) (s' : VmState)
    (hg : GoodState s) (hx : GoodStr x)
    (h : Vm.pushStr s x = Except.ok s') : GoodState s' := by
  unfold Vm.pushStr at h
  rcases hq : Stack.push s.stack x with ⟨r, st⟩
  simp only [hq] at h
  cases r with
  | error e => exact absurd h (by simp)
  | ok idx =>
    simp only [Except.ok.injEq] at h
    subst h
    unfold Stack.push at hq
    split at hq
    · exact absurd hq (by simp)
    · simp only [Prod.mk.injEq] at hq
      obtain ⟨-, hst⟩ := hq
      subst hst
      refine ⟨?_, hg.2.1, hg.2.2⟩
      intro y hy
      rcases List.mem_cons.1 hy with rfl | hy
      · exact hx
      · exact hg.1 y hy

/-- The shared binary-word arm preserves the invariant. -/
theorem Vm.binWordOp_good (i : Instr) (f : Nat → Nat → Except Fault Nat)
    (s : VmState) (cont : Bool) (s' : VmState) (hg : GoodState s)
    (h : Vm.binWordOp i f s = Except.ok (cont, s')) : GoodState s' := by
  unfold Vm.binWordOp at h
  rcases hp : Vm.popFirstTwoItems i s with f' | ⟨⟨a, b⟩, s1⟩
  · simp only [hp] at h
    exact absurd h (by simp)
  · simp only [hp] at h
    rcases hr : f (toU128 a) (toU128 b) with f' | r
    · simp only [hr] at h
      exact absurd h (by simp)
    · simp only [hr] at h
      rcases hq : Vm.pushStr s1 (Bytes32.parseAndTrim (fromU128 r))
        with f' | s2
      · simp only [hq] at h
        exact absurd h (by simp)
      · simp only [hq, Except.ok.injEq, Prod.mk.injEq] at h
        obtain ⟨-, hs⟩ := h
        subst hs
        exact Vm.pushStr_good s1 _ _
          (Vm.popFirstTwoItems_good i s a b s1 hg hp).1
          (parseAndTrim_goodStr _ (fromU128_goodWord r)) hq

/-- The shared comparison arm preserves the invariant. -/
theorem Vm.cmpOp_good (i : Instr) (f : List Nat → List Nat → Bool)
    (s : VmState) (cont : Bool) (s' : VmState) (hg : GoodState s)
    (h : Vm.cmpOp i f s = Except.ok (cont, s')) : GoodState s' := by
  unfold Vm.cmpOp at h
  rcases hp : Vm.popFirstTwoItems i s with f' | ⟨⟨a, b⟩, s1⟩
  · simp only [hp] at h
    exact absurd h (by simp)
  · simp only [hp] at h
    rcases hq : Vm.pushStr s1 (if f a b then ['1'] else ['0']) with f' | s2
    · simp only [hq] at h
      exact absurd h (by simp)
    · simp only [hq, Except.ok.injEq, Prod.mk.injEq] at h
      obtain ⟨-, hs⟩ := h
      subst hs
      refine Vm.pushStr_good s1 _ _
        (Vm.popFirstTwoItems_good i s a b s1 hg hp).1 ?_ hq
      split <;> exact ⟨by simp, by simp, by decide⟩

theorem Memory.extendZeros_good (h : List Nat) (n : Nat)
    (hg : GoodBytes h) : GoodBytes (Memory.extendZeros h n) := by
  intro b hb
  rcases List.mem_append.1 hb with hb | hb
  · exact hg b hb
  · have := List.eq_of_mem_replicate hb
    omega

theorem Memory.grown_good (h : List Nat) (t : Nat) (hg : GoodBytes h) :
    GoodBytes (Memory.grown h t) := by
  unfold Memory.grown
  split
  · exact Memory.extendZeros_good h _ hg
  · exact hg

theorem Memory.mloadHeap_good (h : List Nat) (loc : Nat)
    (hg : GoodBytes h) : GoodBytes (Memory.mloadHeap h loc) := by
  unfold Memory.mloadHeap
  split
  · split
    · exact Memory.extendZeros_good h _ hg
    · exact Memory.extendZeros_good h _ hg
  · exact hg

/-- The `mload` growth rule always reaches at least `loc + 32` bytes. -/
theorem Memory.mloadHeap_length (h : List Nat) (loc : Nat) :
    loc + 32 ≤ (Memory.mloadHeap h loc).length := by
  unfold Memory.mloadHeap Memory.extendZeros
  split
  · split <;>
      simp only [List.length_append, List.length_replicate] <;> omega
  · omega

theorem Memory.write32_good (h : List Nat) (loc : Nat) (data : List Nat)
    (hg : GoodBytes h) (hd : GoodBytes data) :
    GoodBytes (Memory.write32 h loc data) := by
  intro b hb
  unfold Memory.write32 at hb
  rcases List.mem_append.1 hb with hb | hb
  · rcases List.mem_append.1 hb with hb | hb
    · exact hg b ((List.take_sublist _ _).subset hb)
    · exact hd b hb
  · exact hg b ((List.drop_sublist _ _).subset hb)

theorem Memory.mstore_good (h : List Nat) (loc : Nat) (data : List Nat)
    (hg : GoodBytes h) (hd : GoodBytes data) :
    GoodBytes (Memory.mstore h loc data) :=
  Memory.write32_good _ loc data (Memory.grown_good h _ hg) hd

/-- The word read by `mload` is well formed, and the grown heap stays a byte
buffer. -/
theorem Memory.mload_good (h : List Nat) (loc : Nat) (hg : GoodBytes h) :
    GoodWord (Memory.mload h loc).1 ∧ GoodBytes (Memory.mload h loc).2 := by
  have hlen := Memory.mloadHeap_length h loc
  have hheap := Memory.mloadHeap_good h loc hg
  refine ⟨⟨?_, ?_⟩, hheap⟩
  · simp only [Memory.mload, List.length_take, List.length_drop]
    omega
  · intro b hb
    simp only [Memory.mload] at hb
    exact hheap b ((List.drop_sublist _ _).subset
      ((List.take_sublist _ _).subset hb))

/-- A value looked up in storage is one of the stored values. -/
theorem Storage.sload_good (st : List (List Nat × List Nat))
    (slot v : List Nat) (hg : ∀ p ∈ st, GoodWord p.2)
    (h : Storage.sload st slot = some v) : GoodWord v := by
  unfold Storage.sload at h
  rcases hf : st.find? (fun p => decide (p.1 = slot)) with _ | p
  · simp only [hf] at h
    exact absurd h (by simp)
  · simp only [hf, Option.map_some] at h
    injection h with h
    subst h
    exact hg p (List.mem_of_find?_eq_some hf)

/-- A successful `next_byte` yields two hex digits. -/
theorem Lexer.nextByte_hex (cs cs' : List Char) (c1 c2 : Char)
    (h : Lexer.nextByte cs = (Except.ok (c1, c2), cs')) :
    isHexChar c1 = true ∧ isHexChar c2 = true := by
  unfold Lexer.nextByte at h
  split at h
  · exact absurd h (by simp)
  · split at h
    · exact absurd h (by simp)
    · split at h
      · exact absurd h (by simp)
      · rename_i hhex
        simp only [not_or, Bool.not_eq_false, not_not] at hhex
        simp only [Prod.mk.injEq, Except.ok.injEq] at h
        obtain ⟨⟨hc1, hc2⟩, -⟩ := h
        subst hc1
        subst hc2
        exact ⟨hhex.1, hhex.2⟩

/-- A successful `PUSH` immediate read is a string of `2 n` hex digits. -/
theorem Lexer.readBytes_good (n : Nat) (cs ds cs' : List Char)
    (h : Lexer.readBytes n cs = (Except.ok ds, cs')) :
    ds.length = 2 * n ∧ ∀ c ∈ ds, isHexChar c := by
  induction n generalizing cs ds cs' with
  | zero =>
    simp only [Lexer.readBytes, Prod.mk.injEq, Except.ok.injEq] at h
    obtain ⟨hds, -⟩ := h
    subst hds
    exact ⟨rfl, by simp⟩
  | succ n ih =>
    simp only [Lexer.readBytes] at h
    rcases hb : Lexer.nextByte cs with ⟨r1, cs1⟩
    simp only [hb] at h
    cases r1 with
    | error e => exact absurd h (by simp)
    | ok pair =>
      rcases pair with ⟨c1, c2⟩
      rcases hr : Lexer.readBytes n cs1 with ⟨r2, cs2⟩
      simp only [hr] at h
      cases r2 with
      | error e => exact absurd h (by simp)
      | ok ds0 =>
        simp only [Prod.mk.injEq, Except.ok.injEq] at h
        obtain ⟨hds, -⟩ := h
        subst hds
        have hhex := Lexer.nextByte_hex cs cs1 c1 c2 hb
        have ihh := ih cs1 ds0 cs2 hr
        refine ⟨by simp [ihh.1]; omega, ?_⟩
        intro c hc
        rcases List.mem_cons.1 hc with rfl | hc
        · exact hhex.1
        · rcases List.mem_cons.1 hc with rfl | hc
          · exact hhex.2
          · exact ihh.2 c hc

theorem keccakDigest_goodWord (data : List Nat) :
    GoodWord (keccakDigest data) := by
  unfold keccakDigest
  decide

/-- Every successful dispatch-loop iteration preserves the engine-state
invariant: each string it pushes is a non-empty string of at most 64 hex
digits, storage only receives well-formed words, and the heap only bytes. -/
theorem Vm.execInstr_good (i : Instr) (s : VmState) (cont : Bool)
    (s' : VmState) (hg : GoodState s)
    (h : Vm.execInstr i s = Except.ok (cont, s')) : GoodState s' := by
  cases i with
  | STOP =>
    simp only [Vm.execInstr, Except.ok.injEq, Prod.mk.injEq] at h
    obtain ⟨-, hs⟩ := h
    subst hs
    exact hg
  | ADD =>
    simp only [Vm.execInstr] at h
    exact Vm.binWordOp_good _ _ s cont s' hg h
  | MUL =>
    simp only [Vm.execInstr] at h
    exact Vm.binWordOp_good _ _ s cont s' hg h
  | SUB =>
    simp only [Vm.execInstr] at h
    exact Vm.binWordOp_good _ _ s cont s' hg h
  | DIV =>
    simp only [Vm.execInstr] at h
    exact Vm.binWordOp_good _ _ s cont s' hg h
  | MOD =>
    simp only [Vm.execInstr] at h
    exact Vm.binWordOp_good _ _ s cont s' hg h
  | EXP =>
    simp only [Vm.execInstr] at h
    exact Vm.binWordOp_good _ _ s cont s' hg h
  | AND =>
    simp only [Vm.execInstr] at h
    exact Vm.binWordOp_good _ _ s cont s' hg h
  | OR =>
    simp only [Vm.execInstr] at h
    exact Vm.binWordOp_good _ _ s cont s' hg h
  | XOR =>
    simp only [Vm.execInstr] at h
    exact Vm.binWordOp_good _ _ s cont s' hg h
  | LT =>
    simp only [Vm.execInstr] at h
    exact Vm.cmpOp_good _ _ s cont s' hg h
  | GT =>
    simp only [Vm.execInstr] at h
    exact Vm.cmpOp_good _ _ s cont s' hg h
  | EQ =>
    simp only [Vm.execInstr] at h
    exact Vm.cmpOp_good _ _ s cont s' hg h
  | ISZERO =>
    simp only [Vm.execInstr] at h
    rcases hp : Vm.popFirstItem .ISZERO s with f | ⟨a, s1⟩
    · simp only [hp] at h
      exact absurd h (by simp)
    · simp only [hp] at h
      rcases hq : Vm.pushStr s1 (if a = zeroWord then ['1'] else ['0'])
        with f | s2
      · simp only [hq] at h
        exact absurd h (by simp)
      · simp only [hq, Except.ok.injEq, Prod.mk.injEq] at h
        obtain ⟨-, hs⟩ := h
        subst hs
        refine Vm.pushStr_good s1 _ _
          (Vm.popFirstItem_good _ s a s1 hg hp).1 ?_ hq
        split
        · decide
        · decide
  | NOT =>
    simp only [Vm.execInstr] at h
    rcases hp : Vm.popFirstItem .NOT s with f | ⟨a, s1⟩
    · simp only [hp] at h
      exact absurd h (by simp)
    · simp only [hp] at h
      rcases hq : Vm.pushStr s1
          (Bytes32.parseAndTrim (fromBool (¬ a.getD 31 0 ≠ 0))) with f | s2
      · simp only [hq] at h
        exact absurd h (by simp)
      · simp only [hq, Except.ok.injEq, Prod.mk.injEq] at h
        obtain ⟨-, hs⟩ := h
        subst hs
        exact Vm.pushStr_good s1 _ _
          (Vm.popFirstItem_good _ s a s1 hg hp).1
          (parseAndTrim_goodStr _ (fromBool_goodWord _)) hq
  | BYTE =>
    simp only [Vm.execInstr] at h
    rcases hp : Vm.popFirstTwoItems .BYTE s with f | ⟨⟨a, b⟩, s1⟩
    · simp only [hp] at h
      exact absurd h (by simp)
    · simp only [hp] at h
      split at h
      · rcases hr : u128Shr (toU128 b) (8 * (31 - toU128 a)) with f | sh
        · simp only [hr] at h
          exact absurd h (by simp)
        · simp only [hr] at h
          rcases hq : Vm.pushStr s1
              (Bytes32.parseAndTrim (fromU128 (Nat.land sh 0xff))) with f | s2
          · simp only [hq] at h
            exact absurd h (by simp)
          · simp only [hq, Except.ok.injEq, Prod.mk.injEq] at h
            obtain ⟨-, hs⟩ := h
            subst hs
            exact Vm.pushStr_good s1 _ _
              (Vm.popFirstTwoItems_good _ s a b s1 hg hp).1
              (parseAndTrim_goodStr _ (fromU128_goodWord _)) hq
      · rcases hq : Vm.pushStr s1 (Bytes32.parseAndTrim (fromU128 0))
          with f | s2
        · simp only [hq] at h
          exact absurd h (by simp)
        · simp only [hq, Except.ok.injEq, Prod.mk.injEq] at h
          obtain ⟨-, hs⟩ := h
          subst hs
          exact Vm.pushStr_good s1 _ _
            (Vm.popFirstTwoItems_good _ s a b s1 hg hp).1
            (parseAndTrim_goodStr _ (fromU128_goodWord _)) hq
  | KECCAK256 =>
    simp only [Vm.execInstr] at h
    rcases hp : Vm.popFirstItem .KECCAK256 s with f | ⟨a, s1⟩
    · simp only [hp] at h
      exact absurd h (by simp)
    · simp only [hp] at h
      rcases hq : Vm.pushStr s1
          (hexEncode (keccakDigest (a.dropWhile (fun b => b = 0))))
        with f | s2
      · simp only [hq] at h
        exact absurd h (by simp)
      · simp only [hq, Except.ok.injEq, Prod.mk.injEq] at h
        obtain ⟨-, hs⟩ := h
        subst hs
        exact Vm.pushStr_good s1 _ _
          (Vm.popFirstItem_good _ s a s1 hg hp).1
          (hexEncode_goodStr _ (keccakDigest_goodWord _)) hq
  | POP =>
    simp only [Vm.execInstr] at h
    rcases hp : Vm.popFirstItem .POP s with f | ⟨a, s1⟩
    · simp only [hp] at h
      exact absurd h (by simp)
    · simp only [hp, Except.ok.injEq, Prod.mk.injEq] at h
      obtain ⟨-, hs⟩ := h
      subst hs
      exact (Vm.popFirstItem_good _ s a _ hg hp).1
  | MLOAD =>
    simp only [Vm.execInstr] at h
    rcases hp : Vm.popFirstItem .MLOAD s with f | ⟨a, s1⟩
    · simp only [hp] at h
      exact absurd h (by simp)
    · simp only [hp] at h
      have hs1 := (Vm.popFirstItem_good _ s a s1 hg hp).1
      have hml := Memory.mload_good s1.memory (toUsize a) hs1.2.1
      rcases hq : Vm.pushStr
          { s1 with memory := (Memory.mload s1.memory (toUsize a)).2 }
          (hexEncode (Memory.mload s1.memory (toUsize a)).1) with f | s2
      · simp only [hq] at h
        exact absurd h (by simp)
      · simp only [hq, Except.ok.injEq, Prod.mk.injEq] at h
        obtain ⟨-, hs⟩ := h
        subst hs
        exact Vm.pushStr_good
          { s1 with memory := (Memory.mload s1.memory (toUsize a)).2 } _ _
          ⟨hs1.1, hml.2, hs1.2.2⟩ (hexEncode_goodStr _ hml.1) hq
  | MSTORE =>
    simp only [Vm.execInstr] at h
    rcases hp : Vm.popFirstTwoItems .MSTORE s with f | ⟨⟨a, b⟩, s1⟩
    · simp only [hp] at h
      exact absurd h (by simp)
    · simp only [hp, Except.ok.injEq, Prod.mk.injEq] at h
      obtain ⟨-, hs⟩ := h
      subst hs
      have hgood := Vm.popFirstTwoItems_good _ s a b s1 hg hp
      exact ⟨hgood.1.1,
        Memory.mstore_good s1.memory (toUsize a) b hgood.1.2.1 hgood.2.2.2,
        hgood.1.2.2⟩
  | SLOAD =>
    simp only [Vm.execInstr] at h
    rcases hp : Vm.popFirstItem .SLOAD s with f | ⟨a, s1⟩
    · simp only [hp] at h
      exact absurd h (by simp)
    · simp only [hp] at h
      rcases hv : Storage.sload s1.storage a with _ | v
      · simp only [hv] at h
        exact absurd h (by simp)
      · simp only [hv] at h
        have hs1 := (Vm.popFirstItem_good _ s a s1 hg hp).1
        rcases hq : Vm.pushStr s1 (Bytes32.toHexString v) with f | s2
        · simp only [hq] at h
          exact absurd h (by simp)
        · simp only [hq, Except.ok.injEq, Prod.mk.injEq] at h
          obtain ⟨-, hs⟩ := h
          subst hs
          exact Vm.pushStr_good s1 _ _ hs1
            (hexEncode_goodStr _ (Storage.sload_good s1.storage a v hs1.2.2 hv)) hq
  | SSTORE =>
    simp only [Vm.execInstr] at h
    rcases hp : Vm.popFirstTwoItems .SSTORE s with f | ⟨⟨a, b⟩, s1⟩
    · simp only [hp] at h
      exact absurd h (by simp)
    · simp only [hp, Except.ok.injEq, Prod.mk.injEq] at h
      obtain ⟨-, hs⟩ := h
      subst hs
      have hgood := Vm.popFirstTwoItems_good _ s a b s1 hg hp
      refine ⟨hgood.1.1, hgood.1.2.1, ?_⟩
      intro p hp'
      rcases List.mem_cons.1 hp' with rfl | hp'
      · exact hgood.2.2
      · exact hgood.1.2.2 p hp'
  | PUSH n =>
    simp only [Vm.execInstr] at h
    split at h
    · exact absurd h (by simp)
    · rename_i hn32
      split at h
      · rcases hq : Vm.pushStr s ['0'] with f | s2
        · simp only [hq] at h
          exact absurd h (by simp)
        · simp only [hq, Except.ok.injEq, Prod.mk.injEq] at h
          obtain ⟨-, hs⟩ := h
          subst hs
          exact Vm.pushStr_good s _ _ hg (by decide) hq
      · rename_i hn0
        rcases hb : Lexer.readBytes n s.lexer with ⟨r, lex'⟩
        simp only [hb] at h
        cases r with
        | error e => exact absurd h (by simp)
        | ok data =>
          rcases hq : Vm.pushStr { s with lexer := lex' } data with f | s2
          · simp only [hq] at h
            exact absurd h (by simp)
          · simp only [hq, Except.ok.injEq, Prod.mk.injEq] at h
            obtain ⟨-, hs⟩ := h
            subst hs
            have hdata := Lexer.readBytes_good n s.lexer data lex' hb
            refine Vm.pushStr_good { s with lexer := lex' } data _ hg
              ⟨?_, ?_, hdata.2⟩ hq
            · intro hnil
              rw [hnil] at hdata
              have := hdata.1
              simp at this
              omega
            · have := hdata.1
              omega
  | DUP n =>
    simp only [Vm.execInstr] at h
    split at h
    · exact absurd h (by simp)
    · rcases hd : Stack.dup s.stack n with ⟨r, st⟩
      simp only [hd] at h
      cases r with
      | error e => exact absurd h (by simp)
      | ok val =>
        simp only [Except.ok.injEq, Prod.mk.injEq] at h
        obtain ⟨-, hs⟩ := h
        subst hs
        unfold Stack.dup at hd
        split at hd
        · exact absurd hd (by simp)
        · split at hd
          · exact absurd hd (by simp)
          · rename_i hle hemp
            rcases hpu : Stack.push ⟨[], s.stack.length⟩
                (Stack.walk s.stack.nodes n) with ⟨r2, st2⟩
            simp only [hpu] at hd
            cases r2 with
            | error e => exact absurd hd (by simp)
            | ok idx =>
              simp only [Prod.mk.injEq] at hd
              obtain ⟨-, hst⟩ := hd
              subst hst
              unfold Stack.push at hpu
              split at hpu
              · exact absurd hpu (by simp)
              · simp only [Prod.mk.injEq] at hpu
                obtain ⟨-, hst2⟩ := hpu
                subst hst2
                refine ⟨?_, hg.2.1, hg.2.2⟩
                intro y hy
                simp only [List.mem_singleton] at hy
                subst hy
                refine hg.1 _ (Stack.walk_mem s.stack.nodes n ?_)
                intro hnil
                exact hemp (by simp [Stack.isEmpty, hnil])
  | SWAP n =>
    simp only [Vm.execInstr] at h
    split at h
    · exact absurd h (by simp)
    · rcases hd : Stack.swap s.stack n with ⟨r, st⟩
      simp only [hd] at h
      cases r with
      | error e => exact absurd h (by simp)
      | ok val =>
        simp only [Except.ok.injEq, Prod.mk.injEq] at h
        obtain ⟨-, hs⟩ := h
        subst hs
        unfold Stack.swap at hd
        split at hd
        · exact absurd hd (by simp)
        · split at hd
          · exact absurd hd (by simp)
          · split at hd
            · exact absurd hd (by simp)
            · rename_i h0 hle hemp
              simp only [Prod.mk.injEq] at hd
              obtain ⟨-, hst⟩ := hd
              subst hst
              have hne : s.stack.nodes ≠ [] := by
                intro hnil
                exact hemp (by simp [Stack.isEmpty, hnil])
              refine ⟨?_, hg.2.1, hg.2.2⟩
              intro y hy
              rcases List.mem_or_eq_of_mem_set hy with hy | rfl
              · rcases List.mem_or_eq_of_mem_set hy with hy | rfl
                · exact hg.1 y hy
                · exact hg.1 _ (Stack.walk_mem s.stack.nodes n hne)
              · have hhead : s.stack.nodes.headD [] ∈ s.stack.nodes := by
                  rcases hcons : s.stack.nodes with _ | ⟨x0, rest0⟩
                  · exact absurd hcons hne
                  · simp
                exact hg.1 _ hhead

/-- The freshly constructed engine state satisfies the invariant. -/
theorem Vm.init_good (prog : List Char) : GoodState (Vm.init prog) := by
  refine ⟨?_, ?_, ?_⟩ <;> intro x hx <;> exact absurd hx (List.not_mem_nil x)

/-- The full fetch-decode-execute loop preserves the invariant. -/
theorem Vm.runLoop_good (fuel : Nat) (s s' : VmState) (hg : GoodState s)
    (h : Vm.runLoop fuel s = some (Except.ok s')) : GoodState s' := by
  induction fuel generalizing s with
  | zero => exact absurd h (by simp [Vm.runLoop])
  | succ fuel ih =>
    rw [Vm.runLoop] at h
    rcases hl : s.lexer with _ | ⟨c, cs⟩
    · simp only [hl, Option.some.injEq, Except.ok.injEq] at h
      subst h
      exact hg
    · simp only [hl] at h
      split at h
      · simp only [Option.some.injEq, Except.ok.injEq] at h
        subst h
        exact hg
      · rcases hb : Lexer.nextByte (c :: cs) with ⟨r1, lexRest⟩
        simp only [hb] at h
        cases r1 with
        | error e => exact absurd h (by simp)
        | ok pair =>
          rcases pair with ⟨c1, c2⟩
          rcases hv1 : hexCharVal c1 with _ | hi
          · simp only [hv1] at h
            exact absurd h (by simp)
          · rcases hv2 : hexCharVal c2 with _ | lo
            · simp only [hv1, hv2] at h
              exact absurd h (by simp)
            · simp only [hv1, hv2] at h
              rcases hi2 : Instr.fromByte (16 * hi + lo) c1 c2 with e | instr
              · simp only [hi2] at h
                exact absurd h (by simp)
              · simp only [hi2] at h
                rcases he : Vm.execInstr instr { s with lexer := lexRest }
                  with f | ⟨cont, s1⟩
                · simp only [he] at h
                  exact absurd h (by simp)
                · simp only [he] at h
                  have hs1 : GoodState s1 :=
                    Vm.execInstr_good instr { s with lexer := lexRest }
                      cont s1 hg he
                  split at h
                  · exact ih s1 hs1 h
                  · simp only [Option.some.injEq, Except.ok.injEq] at h
                    subst h
                    exact hs1

/-- Claim C10 (amended).  Every string the dispatch loop places on the stack
is a non-empty string of at most 64 ASCII hex digits, and every successful
step preserves this; however (see the counterexample) such strings can have
odd length, on which `Bytes32::from_str` fails, so converting a stack
element back into a word does not always succeed. -/
theorem stack_elements_hex_invariant :
    (∀ (i : Instr) (s : VmState) (cont : Bool) (s' : VmState),
       GoodState s → Vm.execInstr i s = Except.ok (cont, s') →
       GoodState s') ∧
    (∀ (fuel : Nat) (prog : List Char) (s' : VmState),
       Vm.runProgram fuel prog = some (Except.ok s') →
       ∀ x ∈ s'.stack.nodes, GoodStr x) := by
  refine ⟨Vm.execInstr_good, ?_⟩
  intro fuel prog s' h
  exact (Vm.runLoop_good fuel (Vm.init prog) s' (Vm.init_good prog) h).1

/-- Witness for the amended C10 at a concrete input: the final state of
`600a601403` satisfies the stack-element invariant. -/
theorem stack_elements_hex_invariant_witness :
    ∀ x ∈ (⟨⟨[['a']], 1⟩, [], [], []⟩ : VmState).stack.nodes, GoodStr x :=
  stack_elements_hex_invariant.2 9 "600a601403".data _ rfl

end Cubipods
